import Mathlib

/-!
Verification of the closed-loop AutoSciDis workflow
(`researcher_hub/autora_workflow.py`, `researcher_hub/preprocessing.py`).

The embedding follows the source: conditions are pairs of dot counts,
observations are rows of (dots_left, dots_right, accuracy), the state
container holds the condition pool, the observation table and the model
history, and the stages are the functions decorated with `@on_state()`.
The AutoRA library pieces (`StandardState` / `Delta` merge discipline,
`grid_pool`, the condition samplers, the experiment runner transport) are
not part of this repository's sources; they are modelled from the spec
where the claims need them, and each such definition says so.
-/

namespace AutoSciDis

/-- A condition row: one value for each independent variable
(`dots_left`, `dots_right`).  The allowed values `np.linspace(1, 100, 100)`
are the integers 1..100, so dot counts are naturals. -/
structure Cond where
  dots_left : Nat
  dots_right : Nat
deriving DecidableEq, Repr

/-- An observation row, one per completed measurement: both independent
variables plus the dependent variable `accuracy` (a float in the source,
always exactly 0.0 or 1.0, embedded as a rational). -/
structure Obs where
  dots_left : Nat
  dots_right : Nat
  accuracy : ℚ
deriving DecidableEq, Repr

/-- The independent-variable combination of an observation row
(the projection `experiment_data[ivs]` in the source). -/
def Obs.ivCombo (o : Obs) : Cond := ⟨o.dots_left, o.dots_right⟩

/-- A raw jsPsych trial event, as consumed by
`trial_list_to_experiment_data`: its `trial_type`, the optional reaction
time (`none` covers both a missing `rt` key and `rt = None`), the
`number_of_oobs` list whose first two entries are the dot counts, and the
`key_press` response. -/
structure Trial where
  trial_type : String
  rt : Option Int
  number_of_oobs : List Nat
  key_press : String
deriving DecidableEq, Repr

/-- `preprocessing.trial_list_to_experiment_data`: walk the trial list,
skip events whose `trial_type` is not `'rok'` and events without a
recorded reaction time, and for each remaining trial emit one row with
the two dot counts and the computed accuracy
(`1` iff equal counts answered `'y'` or unequal counts answered `'n'`). -/
def trial_list_to_experiment_data : List Trial → List Obs
  | [] => []
  | t :: ts =>
    if t.trial_type ≠ "rok" then
      trial_list_to_experiment_data ts
    else if t.rt.isNone then
      trial_list_to_experiment_data ts
    else
      let dots_left := t.number_of_oobs.getD 0 0
      let dots_right := t.number_of_oobs.getD 1 0
      let choice := t.key_press
      let accuracy : ℚ :=
        if (dots_left = dots_right ∧ choice = "y") ∨
           (dots_left ≠ dots_right ∧ choice = "n") then 1 else 0
      ⟨dots_left, dots_right, accuracy⟩ :: trial_list_to_experiment_data ts

/-- The predicate deciding which trials the parser keeps: the measured
trial type `'rok'` with a recorded reaction time. -/
def keptTrial (t : Trial) : Bool :=
  t.trial_type = "rok" ∧ t.rt.isSome

/-- The observation row the parser emits for a kept trial. -/
def trialRow (t : Trial) : Obs :=
  let dots_left := t.number_of_oobs.getD 0 0
  let dots_right := t.number_of_oobs.getD 1 0
  ⟨dots_left, dots_right,
    if (dots_left = dots_right ∧ t.key_press = "y") ∨
       (dots_left ≠ dots_right ∧ t.key_press = "n") then 1 else 0⟩

/-- The model families fit on every cycle, in the fixed order the source
instantiates and applies them: Nuts, BMS, LogisticRegression. -/
inductive Family where
  | nuts
  | bms
  | lr
deriving DecidableEq, Repr

/-- An opaque fitted-model handle.  The fitters themselves are external
collaborators, so a handle is abstracted as its family tag together with
the observation table it was fit on: this is exactly the information the
claims about the model history track. -/
structure Model where
  family : Family
  fitData : List Obs
deriving DecidableEq, Repr

instance : Inhabited Model := ⟨⟨Family.nuts, []⟩⟩

/-- Modelled from the spec: AutoRA's `StandardState`, the container of
{condition pool, observation table, model history} threaded through the
loop (variable declarations are fixed for the run and omitted).
`experiment_data` starts absent (`none`), as in the source where
`StandardState(variables=variables)` leaves it unset. -/
structure State where
  conditions : List Cond
  experiment_data : Option (List Obs)
  models : List Model
deriving DecidableEq, Repr

/-- The observation table of a container, empty when absent. -/
def State.edata (s : State) : List Obs := s.experiment_data.getD []

/-- Modelled from the spec: AutoRA's `Delta`, a partial update naming only
the fields a stage changed. -/
structure Delta where
  conditions : Option (List Cond) := none
  experiment_data : Option (List Obs) := none
  models : Option (List Model) := none
deriving DecidableEq, Repr

/-- Modelled from the spec: the delta merge protocol — `conditions` is
*replace*, `experiment_data` and `models` are *append/extend* (appending
to an unset prior field initializes it); fields the delta does not name
are untouched. -/
def merge (s : State) (d : Delta) : State :=
  { conditions := d.conditions.getD s.conditions
    experiment_data :=
      match d.experiment_data with
      | none => s.experiment_data
      | some rows => some (s.edata ++ rows)
    models :=
      match d.models with
      | none => s.models
      | some ms => s.models ++ ms }

/-- `theorist_on_state`: if there is no data yet, return an empty delta;
otherwise fit each model family on the observation table and append the
fitted handles in the fixed order [Nuts, BMS, LogisticRegression]. -/
def theorist_on_state (s : State) : State :=
  match s.experiment_data with
  | none => merge s {}
  | some rows =>
    if rows.isEmpty then merge s {}
    else
      merge s { models := some [⟨Family.nuts, rows⟩, ⟨Family.bms, rows⟩, ⟨Family.lr, rows⟩] }

/-- The three handles a fit stage appends for an observation table,
in the source's fixed order. -/
def fitModels (rows : List Obs) : List Model :=
  [⟨Family.nuts, rows⟩, ⟨Family.bms, rows⟩, ⟨Family.lr, rows⟩]

/-- `experiment_data[ivs].drop_duplicates()`: the distinct observed
independent-variable combinations, first occurrence kept. -/
def dropDuplicates : List Cond → List Cond
  | [] => []
  | c :: cs => c :: (dropDuplicates cs).filter (· ≠ c)

/-- Modelled from the spec: `autora.experimentalist.nuts.nuts_sample`, the
per-cycle condition sampler, which is not under this repository's sources.
Per the spec it returns a row-subset of the design space of size at most
the sample count, deduplicating already-observed independent-variable
combinations out of consideration. -/
def nuts_sample (allowed : List Cond) (existing : List Cond) (k : Nat) : List Cond :=
  (allowed.filter (fun c => ¬ c ∈ existing)).take k

/-- `pick_conditions` (the primary branch, delegating to `nuts_sample`
with the allowed pool, the observed combinations and the sample count;
the model handles are not forwarded in this branch). -/
def pick_conditions (allowed : List Cond) (existing : List Cond)
    (ms : List Model) (k : Nat) : List Cond :=
  nuts_sample allowed existing k

/-- Modelled from the spec: `autora.experimentalist.random.random_sample`,
the bootstrap sampler — a row-subset of the design space of size at most
the sample count. -/
def random_sample (allowed : List Cond) (k : Nat) : List Cond :=
  allowed.take k

/-- `initialize_state`: seed the condition pool with a bootstrap sample
(a *replace* delta for `conditions`). -/
def initialize_state (allowed : List Cond) (num_samples : Nat) (s : State) : State :=
  merge s { conditions := some (random_sample allowed num_samples) }

/-- `experimentalist_on_state`: project the observed independent-variable
combinations (deduplicated; empty when there is no data), ask
`pick_conditions` for new conditions, and *replace* the condition pool. -/
def experimentalist_on_state (allowed : List Cond) (models_to_compare : List Model)
    (num_samples : Nat) (s : State) : State :=
  let existing :=
    match s.experiment_data with
    | none => []
    | some rows => if rows.isEmpty then [] else dropDuplicates (rows.map Obs.ivCombo)
  let chosen := pick_conditions allowed existing models_to_compare num_samples
  merge s { conditions := some chosen }

/-- `runner_on_state`: compile and submit the conditions through the
external execution engine, then parse every returned result blob with
`trial_list_to_experiment_data` and concatenate the rows; the delta
*appends* them to the observation table.  The external engine is passed
as the function `runnerResults` from the condition pool to the list of
returned trial lists (one per result blob). -/
def runner_on_state (runnerResults : List Cond → List (List Trial)) (s : State) : State :=
  let parsed := (runnerResults s.conditions).flatMap trial_list_to_experiment_data
  merge s { experiment_data := some parsed }

/-- Line 205 of the workflow: the scheduler's
`[state.models[-1], state.models[-2], state.models[-3]]` — the model list
handed to the selection stage, by Python negative indexing from the end
of the model history.  This total version pads with a default handle
when the history is shorter than three entries and agrees with the
source exactly on histories of length ≥ 3; the source instead raises
`IndexError` below three entries, which `models_to_compare?` embeds. -/
def models_to_compare (ms : List Model) : List Model :=
  [ms.getD (ms.length - 1) default, ms.getD (ms.length - 2) default,
   ms.getD (ms.length - 3) default]

/-- The fallible embedding of line 205: Python's `models[-k]` raises
`IndexError` when the history holds fewer than `k` entries, so the
scheduler's list exists only when the history has at least three
entries. -/
def models_to_compare? (ms : List Model) : Option (List Model) :=
  if 3 ≤ ms.length then some (models_to_compare ms) else none

/-- `num_conditions_per_cycle` in the source. -/
def num_conditions_per_cycle : Nat := 2

/-- One iteration of the workflow loop: execute, fit, then select with
the scheduler's `models_to_compare` list. -/
def cycleStep (allowed : List Cond) (runnerResults : List Cond → List (List Trial))
    (s : State) : State :=
  let s1 := runner_on_state runnerResults s
  let s2 := theorist_on_state s1
  experimentalist_on_state allowed (models_to_compare s2.models)
    num_conditions_per_cycle s2

/-- The workflow loop run for one external-engine behaviour per cycle
(the source fixes `num_cycles = 2`; the claims quantify over runs, so the
cycle count is the length of the list of per-cycle engine behaviours). -/
def runLoop (allowed : List Cond) (engines : List (List Cond → List (List Trial)))
    (s : State) : State :=
  engines.foldl (fun acc eng => cycleStep allowed eng acc) s

/-- The fallible embedding of one loop iteration: execute, fit, then
raise (`none`) if line 205's negative indexing has fewer than three
history entries to take, else select with the scheduler's list. -/
def cycleStep? (allowed : List Cond) (f : List Cond → List (List Trial))
    (s : State) : Option State :=
  let s1 := runner_on_state f s
  let s2 := theorist_on_state s1
  match models_to_compare? s2.models with
  | none => none
  | some mtc => some (experimentalist_on_state allowed mtc num_conditions_per_cycle s2)

/-- The fallible embedding of the workflow loop: the run aborts
(`none`) at the first cycle whose scheduler step raises, exactly as an
uncaught `IndexError` aborts the source's loop. -/
def runLoop? (allowed : List Cond) :
    List (List Cond → List (List Trial)) → State → Option State
  | [], s => some s
  | f :: fs, s =>
    match cycleStep? allowed f s with
    | none => none
    | some s2 => runLoop? allowed fs s2

/-- The container at program start: declarations only, no conditions, no
data, no models. -/
def state0 : State := ⟨[], none, []⟩

/-- Modelled from the spec: `autora.experimentalist.grid.grid_pool`, the
deterministic cross-product of the declared allowed-value sets in
declaration order (`dots_left` outer, `dots_right` inner). -/
def grid_pool (vals1 vals2 : List Nat) : List Cond :=
  vals1.flatMap (fun a => vals2.map (fun b => ⟨a, b⟩))

/-- `np.linspace(1, 100, 100)`: the integers 1..100. -/
def allowedValues : List Nat := (List.range 100).map (· + 1)

/-- `allowed_conditions`: the grid pool over the two declared variables
with the equal-dot rows removed (source lines 80–84). -/
def allowed_conditions : List Cond :=
  (grid_pool allowedValues allowedValues).filter
    (fun c => c.dots_left ≠ c.dots_right)

/-- The observation rows one execution stage contributes: every result
blob returned by the external engine for the current condition pool,
parsed and concatenated (the loop body of `runner_on_state`). -/
def cycleParsed (eng : List Cond → List (List Trial)) (s : State) : List Obs :=
  (eng s.conditions).flatMap trial_list_to_experiment_data

/-- The observation rows contributed by each cycle of a run, in cycle
order, concatenated. -/
def traceParsed (allowed : List Cond) :
    List (List Cond → List (List Trial)) → State → List Obs
  | [], _ => []
  | f :: fs, s => cycleParsed f s ++ traceParsed allowed fs (cycleStep allowed f s)

/-- The number of rows the parser actually produces across all result
blobs of one execution-stage invocation. -/
def parsedRowCount (eng : List Cond → List (List Trial)) (s : State) : Nat :=
  ((eng s.conditions).map (fun blob => (trial_list_to_experiment_data blob).length)).sum

/-- Per-cycle parsed-row counts along a run. -/
def traceRowCounts (allowed : List Cond) :
    List (List Cond → List (List Trial)) → State → List Nat
  | [], _ => []
  | f :: fs, s => parsedRowCount f s :: traceRowCounts allowed fs (cycleStep allowed f s)

/-- The observed independent-variable combinations the selection stage
projects out of a container (the `existing` value inside
`experimentalist_on_state`). -/
def observedCombos (s : State) : List Cond :=
  match s.experiment_data with
  | none => []
  | some rows => if rows.isEmpty then [] else dropDuplicates (rows.map Obs.ivCombo)

/-- The container right after the bootstrap stage, as the program builds
it: `initialize_state(state, allowed_conditions, num_conditions_per_cycle)`. -/
def progStart : State :=
  initialize_state allowed_conditions num_conditions_per_cycle state0

/-- A concrete external-engine behaviour used to instantiate run
theorems: it returns one result blob holding one kept trial
(unequal dot counts 3 and 5, response `'n'`). -/
def engineA : List Cond → List (List Trial) :=
  fun _ => [[⟨"rok", some 500, [3, 5], "n"⟩]]

/-- An external-engine behaviour that under-delivers completely: zero
result blobs for the requested conditions. -/
def engineZero : List Cond → List (List Trial) :=
  fun _ => []

section Lemmas

/-- Counting the values differing from `a` in a list of naturals. -/
theorem filter_ne_length (a : Nat) (l : List Nat) :
    (l.filter (fun b => a ≠ b)).length = l.length - l.count a := by
  induction l with
  | nil => rfl
  | cons x l ih =>
    have hle := List.count_le_length a l
    by_cases h : a = x
    · subst h
      simp only [List.filter_cons, List.count_cons, List.length_cons] at *
      simp at *
      omega
    · simp only [List.filter_cons, List.count_cons, List.length_cons] at *
      simp [h, Ne.symm h] at *
      omega

/-- One grid row block of the design space, after the inequality filter,
has one entry per differing second coordinate. -/
theorem row_filter_length (a : Nat) (l : List Nat) :
    ((l.map (fun b => Cond.mk a b)).filter
      (fun c => c.dots_left ≠ c.dots_right)).length
      = (l.filter (fun b => a ≠ b)).length := by
  rw [← List.countP_eq_length_filter, ← List.countP_eq_length_filter,
    List.countP_map]
  rfl

/-- The size of the filtered grid pool, block by block. -/
theorem grid_filter_length (l1 l2 : List Nat) :
    ((grid_pool l1 l2).filter (fun c => c.dots_left ≠ c.dots_right)).length
      = (l1.map (fun a => (l2.filter (fun b => a ≠ b)).length)).sum := by
  induction l1 with
  | nil => rfl
  | cons a l1 ih =>
    simp only [grid_pool, List.flatMap_cons, List.filter_append,
      List.length_append, List.map_cons, List.sum_cons] at *
    rw [ih, row_filter_length]

/-- The declared allowed values 1..100 are pairwise distinct. -/
theorem allowedValues_nodup : allowedValues.Nodup :=
  List.Nodup.map (add_left_injective 1) (List.nodup_range 100)

/-- There are 100 declared allowed values per independent variable. -/
theorem allowedValues_length : allowedValues.length = 100 := by
  simp [allowedValues]

/-- The execution stage replaces nothing: it only appends the parsed
rows to the observation table. -/
theorem runner_fields (eng : List Cond → List (List Trial)) (s : State) :
    runner_on_state eng s
      = ⟨s.conditions, some (s.edata ++ cycleParsed eng s), s.models⟩ := rfl

/-- The fit stage never touches the observation table. -/
theorem theorist_experiment_data (s : State) :
    (theorist_on_state s).experiment_data = s.experiment_data := by
  rcases h : s.experiment_data with _ | rows
  · simp [theorist_on_state, h, merge]
  · simp only [theorist_on_state, h]
    split <;> simp [merge, h]

/-- With no data (absent or empty table) the fit stage returns the
container unchanged. -/
theorem theorist_fields_empty (s : State)
    (h : s.experiment_data = none ∨ s.experiment_data = some []) :
    theorist_on_state s = s := by
  rcases s with ⟨cs, ed, ms⟩
  cases ed with
  | none => rfl
  | some rows =>
    rcases h with h | h
    · exact absurd h (by simp)
    · have hr : rows = [] := by simpa using h
      subst hr
      rfl

/-- With a non-empty table the fit stage appends one fitted handle per
family, in the fixed order, and changes nothing else. -/
theorem theorist_fields (s : State) (rows : List Obs)
    (h : s.experiment_data = some rows) (hne : rows ≠ []) :
    theorist_on_state s
      = ⟨s.conditions, s.experiment_data, s.models ++ fitModels rows⟩ := by
  have hf : rows.isEmpty = false := by
    cases rows with
    | nil => exact absurd rfl hne
    | cons a l => rfl
  simp [theorist_on_state, h, hf, merge, fitModels, State.edata]

/-- The selection stage replaces the condition pool and leaves the
observation table and model history untouched. -/
theorem experimentalist_fields (allowed : List Cond) (ms : List Model)
    (k : Nat) (s : State) :
    experimentalist_on_state allowed ms k s
      = ⟨pick_conditions allowed (observedCombos s) ms k,
         s.experiment_data, s.models⟩ := rfl

/-- The condition pool the selection stage produces, spelled out, when
the observation table holds rows. -/
theorem experimentalist_conditions_of_data (allowed : List Cond) (ms : List Model)
    (k : Nat) (s : State) (rows : List Obs)
    (h : s.experiment_data = some rows) (hf : rows.isEmpty = false) :
    (experimentalist_on_state allowed ms k s).conditions
      = (allowed.filter
          (fun c => ¬ c ∈ dropDuplicates (rows.map Obs.ivCombo))).take k := by
  simp [experimentalist_on_state, h, hf, pick_conditions, nuts_sample, merge]

/-- Deduplication keeps every combination that occurs in the input. -/
theorem mem_dropDuplicates_of_mem (a : Cond) (l : List Cond)
    (h : a ∈ l) : a ∈ dropDuplicates l := by
  induction l with
  | nil => simp at h
  | cons c cs ih =>
    rw [dropDuplicates]
    by_cases hc : a = c
    · simp [hc]
    · rcases List.mem_cons.mp h with h | h
      · exact absurd h hc
      · exact List.mem_cons_of_mem _
          (List.mem_filter.mpr ⟨ih h, by simp [hc]⟩)

/-- One full cycle appends exactly its execution stage's parsed rows to
the observation table. -/
theorem cycleStep_edata (allowed : List Cond) (f : List Cond → List (List Trial))
    (s : State) :
    (cycleStep allowed f s).edata = s.edata ++ cycleParsed f s := by
  simp only [cycleStep]
  rw [experimentalist_fields]
  simp [State.edata, theorist_experiment_data, runner_fields]

/-- One full cycle appends either nothing (no data at the fit stage) or
the three freshly fitted handles to the model history. -/
theorem cycleStep_models (allowed : List Cond) (f : List Cond → List (List Trial))
    (s : State) :
    (cycleStep allowed f s).models
      = s.models ++ (if s.edata ++ cycleParsed f s = [] then []
          else fitModels (s.edata ++ cycleParsed f s)) := by
  simp only [cycleStep]
  rw [experimentalist_fields]
  by_cases h : s.edata ++ cycleParsed f s = []
  · rw [runner_fields, theorist_fields_empty _ (Or.inr (by rw [h])), if_pos h]
    simp
  · rw [runner_fields, theorist_fields _ (s.edata ++ cycleParsed f s) rfl h, if_neg h]

/-- Unfolding one cycle of the loop. -/
theorem runLoop_cons (allowed : List Cond) (f : List Cond → List (List Trial))
    (fs : List (List Cond → List (List Trial))) (s : State) :
    runLoop allowed (f :: fs) s = runLoop allowed fs (cycleStep allowed f s) := rfl

/-- Splitting a run at any point. -/
theorem runLoop_append (allowed : List Cond)
    (l1 l2 : List (List Cond → List (List Trial))) (s : State) :
    runLoop allowed (l1 ++ l2) s = runLoop allowed l2 (runLoop allowed l1 s) := by
  simp [runLoop, List.foldl_append]

/-- Across a whole run the observation table is the initial table with
every cycle's parsed rows concatenated after it. -/
theorem runLoop_edata (allowed : List Cond)
    (engines : List (List Cond → List (List Trial))) :
    ∀ s : State, (runLoop allowed engines s).edata
      = s.edata ++ traceParsed allowed engines s := by
  induction engines with
  | nil => intro s; simp [runLoop, traceParsed]
  | cons f fs ih =>
    intro s
    rw [runLoop_cons, ih, traceParsed, cycleStep_edata, List.append_assoc]

/-- One execution stage parses as many rows as the blob-by-blob counts
say. -/
theorem cycleParsed_length (f : List Cond → List (List Trial)) (s : State) :
    (cycleParsed f s).length = parsedRowCount f s := by
  simp only [cycleParsed, parsedRowCount, List.length_flatMap]
  rfl

/-- The rows contributed along a run, counted cycle by cycle. -/
theorem traceParsed_length (allowed : List Cond)
    (fs : List (List Cond → List (List Trial))) :
    ∀ s : State,
      (traceParsed allowed fs s).length = (traceRowCounts allowed fs s).sum := by
  induction fs with
  | nil => intro s; rfl
  | cons f fs ih =>
    intro s
    simp [traceParsed, traceRowCounts, cycleParsed_length, ih]

/-- Model-history bookkeeping along a run in which every fit stage sees
a non-empty observation table: three handles per completed cycle, the
last three being the most recent fit's outputs on the final table, and
every earlier prefix of the history left in place. -/
theorem runLoop_models_of_nonempty (allowed : List Cond) :
    ∀ (fs : List (List Cond → List (List Trial))) (s : State),
    (∀ i (hi : i < fs.length),
      (runner_on_state (fs.get ⟨i, hi⟩) (runLoop allowed (fs.take i) s)).edata ≠ []) →
    (runLoop allowed fs s).models.length = s.models.length + 3 * fs.length ∧
    (fs ≠ [] → (runLoop allowed fs s).models.drop (s.models.length + 3 * fs.length - 3)
        = fitModels ((runLoop allowed fs s).edata)) ∧
    (∀ i, i ≤ fs.length →
      (runLoop allowed fs s).models.take ((runLoop allowed (fs.take i) s).models.length)
        = (runLoop allowed (fs.take i) s).models) := by
  intro fs
  induction fs with
  | nil =>
    intro s H
    refine ⟨by simp [runLoop], fun h => absurd rfl h, ?_⟩
    intro i hi
    simp [runLoop, List.take_length]
  | cons f fs ih =>
    intro s H
    have h0 : (runner_on_state f s).edata ≠ [] := by
      have := H 0 (by simp)
      simpa [runLoop] using this
    have hd : s.edata ++ cycleParsed f s ≠ [] := by
      simpa [runner_fields, State.edata] using h0
    have hstep : (cycleStep allowed f s).models
        = s.models ++ fitModels (s.edata ++ cycleParsed f s) := by
      rw [cycleStep_models, if_neg hd]
    have H2 : ∀ i (hi : i < fs.length),
        (runner_on_state (fs.get ⟨i, hi⟩)
          (runLoop allowed (fs.take i) (cycleStep allowed f s))).edata ≠ [] := by
      intro i hi
      have := H (i + 1) (by simpa using Nat.succ_lt_succ hi)
      simpa [List.take_succ_cons, runLoop_cons] using this
    obtain ⟨ihlen, ihlast, ihpre⟩ := ih (cycleStep allowed f s) H2
    have hslen : (cycleStep allowed f s).models.length = s.models.length + 3 := by
      rw [hstep]; simp [fitModels]
    refine ⟨?_, ?_, ?_⟩
    · rw [runLoop_cons, ihlen, hslen]
      simp only [List.length_cons]
      omega
    · intro _
      rw [runLoop_cons]
      cases fs with
      | nil =>
        simp only [runLoop, List.foldl_nil, List.length_cons, List.length_nil,
          Nat.zero_add, Nat.mul_one, Nat.add_sub_cancel]
        rw [hstep, cycleStep_edata, List.drop_left]
      | cons g gs =>
        have hlast := ihlast (by simp)
        have harith : s.models.length + 3 * ((g :: gs).length + 1) - 3
            = (cycleStep allowed f s).models.length + 3 * (g :: gs).length - 3 := by
          rw [hslen]; omega
        rw [List.length_cons, harith]
        exact hlast
    · intro i hile
      cases i with
      | zero =>
        simp only [List.take_zero, runLoop, List.foldl_nil]
        have h0pre := ihpre 0 (Nat.zero_le _)
        simp only [List.take_zero, runLoop, List.foldl_nil] at h0pre
        have hle : s.models.length ≤ (cycleStep allowed f s).models.length := by omega
        rw [show List.foldl (fun acc eng => cycleStep allowed eng acc) s (f :: fs)
              = List.foldl (fun acc eng => cycleStep allowed eng acc)
                  (cycleStep allowed f s) fs from rfl]
        rw [← min_eq_left hle, ← List.take_take, h0pre, hstep, List.take_left]
      | succ j =>
        have hj : j ≤ fs.length := by simpa using hile
        have := ihpre j hj
        simpa [List.take_succ_cons, runLoop_cons] using this

/-- On a run in which every fit stage sees a non-empty observation
table, the model history holds at least three entries at every
scheduler step, so the fallible run never raises and agrees with the
total one. -/
theorem runLoop?_eq_of_nonempty (allowed : List Cond) :
    ∀ (fs : List (List Cond → List (List Trial))) (s : State),
    (∀ i (hi : i < fs.length),
      (runner_on_state (fs.get ⟨i, hi⟩) (runLoop allowed (fs.take i) s)).edata ≠ []) →
    runLoop? allowed fs s = some (runLoop allowed fs s) := by
  intro fs
  induction fs with
  | nil => intro s H; rfl
  | cons f fs ih =>
    intro s H
    have h0 : (runner_on_state f s).edata ≠ [] := by
      have := H 0 (by simp)
      simpa [runLoop] using this
    have hd : s.edata ++ cycleParsed f s ≠ [] := by
      simpa [runner_fields, State.edata] using h0
    have hm : (theorist_on_state (runner_on_state f s)).models
        = s.models ++ fitModels (s.edata ++ cycleParsed f s) := by
      rw [runner_fields, theorist_fields _ (s.edata ++ cycleParsed f s) rfl hd]
    have hlen : 3 ≤ (theorist_on_state (runner_on_state f s)).models.length := by
      rw [hm]
      simp only [List.length_append, fitModels, List.length_cons, List.length_nil]
      omega
    have hstep : cycleStep? allowed f s = some (cycleStep allowed f s) := by
      simp only [cycleStep?, cycleStep, models_to_compare?, if_pos hlen]
    have H2 : ∀ i (hi : i < fs.length),
        (runner_on_state (fs.get ⟨i, hi⟩)
          (runLoop allowed (fs.take i) (cycleStep allowed f s))).edata ≠ [] := by
      intro i hi
      have := H (i + 1) (by simpa using Nat.succ_lt_succ hi)
      simpa [List.take_succ_cons, runLoop_cons] using this
    rw [show runLoop? allowed (f :: fs) s
          = (match cycleStep? allowed f s with
             | none => none
             | some s2 => runLoop? allowed fs s2) from rfl,
      hstep, runLoop_cons]
    exact ih _ H2

/-- Python's negative indexing `[ms[-1], ms[-2], ms[-3]]` on a history
ending in three known entries picks them back to front. -/
theorem models_to_compare_append3 (l : List Model) (a b c : Model) :
    models_to_compare (l ++ [a, b, c]) = [c, b, a] := by
  have hlen : (l ++ [a, b, c]).length = l.length + 3 := by simp
  have h1 : (l ++ [a, b, c]).getD ((l ++ [a, b, c]).length - 1) default = c := by
    rw [hlen, List.getD_append_right _ _ _ _ (by omega),
      show l.length + 3 - 1 - l.length = 2 from by omega]
    rfl
  have h2 : (l ++ [a, b, c]).getD ((l ++ [a, b, c]).length - 2) default = b := by
    rw [hlen, List.getD_append_right _ _ _ _ (by omega),
      show l.length + 3 - 2 - l.length = 1 from by omega]
    rfl
  have h3 : (l ++ [a, b, c]).getD ((l ++ [a, b, c]).length - 3) default = a := by
    rw [hlen, List.getD_append_right _ _ _ _ (by omega),
      show l.length + 3 - 3 - l.length = 0 from by omega]
    rfl
  rw [models_to_compare, h1, h2, h3]

/-- The parser is the filter of kept trials mapped through `trialRow`. -/
theorem parse_eq_filter_map (ts : List Trial) :
    trial_list_to_experiment_data ts = (ts.filter keptTrial).map trialRow := by
  induction ts with
  | nil => rfl
  | cons t ts ih =>
    by_cases h1 : t.trial_type = "rok"
    · by_cases h2 : t.rt.isSome
      · have hn : t.rt.isNone = false := by
          cases hrt : t.rt <;> simp_all
        simp [trial_list_to_experiment_data, keptTrial, trialRow, h1, h2, hn, ih]
      · have hn : t.rt.isNone = true := by
          cases hrt : t.rt <;> simp_all
        simp [trial_list_to_experiment_data, keptTrial, h1, h2, hn, ih]
    · simp [trial_list_to_experiment_data, keptTrial, h1, ih]

end Lemmas

section Claims

/-- C8: for every input trial list, the result parser returns a table
whose columns are the independent variables (`dots_left`, `dots_right`)
and the dependent variable (`accuracy`) — the fields of `Obs` — with
exactly one row per input trial whose `trial_type` is `'rok'` and which
has a recorded response, in input order; all other events are
discarded. -/
theorem parser_keeps_exactly_measured_responded_trials (ts : List Trial) :
    trial_list_to_experiment_data ts = (ts.filter keptTrial).map trialRow ∧
    (trial_list_to_experiment_data ts).length = ts.countP keptTrial := by
  refine ⟨parse_eq_filter_map ts, ?_⟩
  rw [parse_eq_filter_map ts, List.length_map, List.countP_eq_length_filter]

/-- C10: every row the parser keeps has accuracy exactly 1 when the dot
counts are equal and the key press is `'y'`, or the counts are unequal
and the key press is `'n'`, and exactly 0 otherwise; hence every
accuracy value lies in {0, 1}, inside the declared range (0, 1). -/
theorem parser_accuracy_in_range (ts : List Trial) (o : Obs)
    (ho : o ∈ trial_list_to_experiment_data ts) :
    (o.accuracy = 0 ∨ o.accuracy = 1) ∧ 0 ≤ o.accuracy ∧ o.accuracy ≤ 1 ∧
    ∃ t ∈ ts, keptTrial t ∧ o = trialRow t ∧
      (o.accuracy = 1 ↔
        ((t.number_of_oobs.getD 0 0 = t.number_of_oobs.getD 1 0 ∧ t.key_press = "y") ∨
         (t.number_of_oobs.getD 0 0 ≠ t.number_of_oobs.getD 1 0 ∧ t.key_press = "n"))) := by
  rw [parse_eq_filter_map ts] at ho
  obtain ⟨t, ht, rfl⟩ := List.mem_map.mp ho
  obtain ⟨htm, htk⟩ := List.mem_filter.mp ht
  refine ⟨?_, ?_, ?_, t, htm, htk, rfl, ?_⟩
  · simp only [trialRow]; split <;> norm_num
  · simp only [trialRow]; split <;> norm_num
  · simp only [trialRow]; split <;> norm_num
  · simp only [trialRow]
    split
    · exact iff_of_true rfl (by assumption)
    · exact iff_of_false (by norm_num) (by assumption)

/-- C10 witness: a concrete kept trial (unequal counts, `'n'` pressed)
whose parsed row has accuracy 1. -/
theorem parser_accuracy_in_range_witness :
    (((1:ℚ) = 0 ∨ (1:ℚ) = 1) ∧ (0:ℚ) ≤ 1 ∧ (1:ℚ) ≤ 1 ∧
      ∃ t ∈ [(⟨"rok", some 500, [3, 5], "n"⟩ : Trial)], keptTrial t ∧
        (⟨3, 5, 1⟩ : Obs) = trialRow t ∧
        ((1:ℚ) = 1 ↔
          ((t.number_of_oobs.getD 0 0 = t.number_of_oobs.getD 1 0 ∧ t.key_press = "y") ∨
           (t.number_of_oobs.getD 0 0 ≠ t.number_of_oobs.getD 1 0 ∧ t.key_press = "n")))) :=
  parser_accuracy_in_range [⟨"rok", some 500, [3, 5], "n"⟩] ⟨3, 5, 1⟩ (by decide)

/-- C9: the design space is the deterministic cross-product of the
declared allowed-value sets in declaration order with the filtered rows
removed: on allowed values {1,2} for each variable with filter "left ≠
right" it is exactly [(1,2), (2,1)], and the program's design space is
the 100×100 grid over (dots_left, dots_right) minus the diagonal — its
rows are exactly the pairs of distinct allowed values and it has
100·100 − 100 = 9900 rows. -/
theorem design_space_filter_correct :
    (grid_pool [1, 2] [1, 2]).filter (fun c => c.dots_left ≠ c.dots_right)
      = [⟨1, 2⟩, ⟨2, 1⟩] ∧
    (∀ c : Cond, c ∈ allowed_conditions ↔
      (c.dots_left ∈ allowedValues ∧ c.dots_right ∈ allowedValues ∧
        c.dots_left ≠ c.dots_right)) ∧
    allowed_conditions.length = 9900 := by
  refine ⟨by decide, ?_, ?_⟩
  · intro c
    rcases c with ⟨a, b⟩
    simp only [allowed_conditions, grid_pool, List.mem_filter,
      List.mem_flatMap, List.mem_map, Cond.mk.injEq]
    constructor
    · rintro ⟨⟨x, hx, y, hy, h1, h2⟩, hne⟩
      subst h1; subst h2
      exact ⟨hx, hy, by simpa using hne⟩
    · rintro ⟨ha, hb, hne⟩
      exact ⟨⟨a, ha, b, hb, rfl, rfl⟩, by simpa using hne⟩
  · rw [allowed_conditions, grid_filter_length]
    have h : ∀ a ∈ allowedValues,
        (allowedValues.filter (fun b => a ≠ b)).length = 99 := by
      intro a ha
      rw [filter_ne_length, allowedValues_length,
        List.count_eq_one_of_mem allowedValues_nodup ha]
    rw [List.map_congr_left h, List.map_const', allowedValues_length]
    norm_num [List.sum_replicate]

/-- C1: in every run in which every fit stage sees a non-empty
observation table, after n completed fit stages the model history has
exactly n·3 entries; its last 3 entries are exactly the most recent fit
stage's outputs in the fixed family order [Nuts, BMS, LogisticRegression]
(fitted on the table that fit stage saw, which is the final table); and
every earlier history prefix survives unchanged — entries are never
reordered or removed. -/
theorem model_history_invariant
    (engines : List (List Cond → List (List Trial)))
    (H : ∀ i (hi : i < engines.length),
      (runner_on_state (engines.get ⟨i, hi⟩)
        (runLoop allowed_conditions (engines.take i) progStart)).edata ≠ []) :
    (runLoop allowed_conditions engines progStart).models.length
        = 3 * engines.length ∧
    (engines ≠ [] →
      (runLoop allowed_conditions engines progStart).models.drop
          (3 * engines.length - 3)
        = fitModels ((runLoop allowed_conditions engines progStart).edata)) ∧
    (∀ i, i ≤ engines.length →
      (runLoop allowed_conditions engines progStart).models.take
          ((runLoop allowed_conditions (engines.take i) progStart).models.length)
        = (runLoop allowed_conditions (engines.take i) progStart).models) := by
  obtain ⟨h1, h2, h3⟩ :=
    runLoop_models_of_nonempty allowed_conditions engines progStart H
  have h0 : progStart.models.length = 0 := rfl
  rw [h0, Nat.zero_add] at h1 h2
  exact ⟨h1, h2, h3⟩

/-- C1 witness: a one-cycle run whose single execution stage delivers
one kept trial, so the fit stage sees a non-empty table. -/
theorem model_history_invariant_witness :
    (∀ i (hi : i < ([engineA] : List (List Cond → List (List Trial))).length),
      (runner_on_state ([engineA].get ⟨i, hi⟩)
        (runLoop allowed_conditions ([engineA].take i) progStart)).edata ≠ []) ∧
    ((runLoop allowed_conditions [engineA] progStart).models.length
        = 3 * [engineA].length ∧
    (([engineA] : List (List Cond → List (List Trial))) ≠ [] →
      (runLoop allowed_conditions [engineA] progStart).models.drop
          (3 * [engineA].length - 3)
        = fitModels ((runLoop allowed_conditions [engineA] progStart).edata)) ∧
    (∀ i, i ≤ [engineA].length →
      (runLoop allowed_conditions [engineA] progStart).models.take
          ((runLoop allowed_conditions ([engineA].take i) progStart).models.length)
        = (runLoop allowed_conditions ([engineA].take i) progStart).models)) :=
  ⟨by decide, model_history_invariant [engineA] (by decide)⟩

/-- C2 counterexample: already after the first fit stage (one kept
trial, so the history is exactly the three fresh handles), the list the
scheduler computes as `[models[-1], models[-2], models[-3]]` differs from
the last three history entries in the order the fit stage appended
them — the scheduler's list is reversed. -/
theorem scheduler_model_order_counterexample :
    ¬ (models_to_compare
        (theorist_on_state (runner_on_state engineA progStart)).models
      = (theorist_on_state (runner_on_state engineA progStart)).models.drop
          ((theorist_on_state (runner_on_state engineA progStart)).models.length
            - 3)) := by
  decide

/-- C2 (amended): after a fit stage on a non-empty table, the scheduler
hands the selection stage precisely the three model-history entries that
fit stage appended, but in reverse of the appended family order —
[LogisticRegression, BMS, Nuts] rather than [Nuts, BMS,
LogisticRegression]. -/
theorem scheduler_hands_last_fit_reversed (s : State) (rows : List Obs)
    (h : s.experiment_data = some rows) (hne : rows ≠ []) :
    models_to_compare (theorist_on_state s).models = (fitModels rows).reverse ∧
    (theorist_on_state s).models.drop ((theorist_on_state s).models.length - 3)
      = fitModels rows := by
  rw [theorist_fields s rows h hne]
  constructor
  · rw [show fitModels rows
        = [(⟨Family.nuts, rows⟩ : Model), ⟨Family.bms, rows⟩, ⟨Family.lr, rows⟩]
        from rfl,
      models_to_compare_append3]
    rfl
  · simp only [fitModels]
    rw [show (s.models
          ++ [(⟨Family.nuts, rows⟩ : Model), ⟨Family.bms, rows⟩,
              ⟨Family.lr, rows⟩]).length - 3
          = s.models.length from by simp,
      List.drop_left]

/-- C2 witness: the amended statement at a concrete post-execution
container holding one observation row. -/
theorem scheduler_hands_last_fit_reversed_witness :
    models_to_compare
        (theorist_on_state (⟨[], some [⟨3, 5, 1⟩], []⟩ : State)).models
      = (fitModels [⟨3, 5, 1⟩]).reverse ∧
    (theorist_on_state (⟨[], some [⟨3, 5, 1⟩], []⟩ : State)).models.drop
        ((theorist_on_state (⟨[], some [⟨3, 5, 1⟩], []⟩ : State)).models.length - 3)
      = fitModels [⟨3, 5, 1⟩] :=
  scheduler_hands_last_fit_reversed ⟨[], some [⟨3, 5, 1⟩], []⟩ [⟨3, 5, 1⟩]
    rfl (by decide)

/-- C3: when the observation table is non-empty, no condition the
selection stage puts in the pool has an independent-variable combination
already present in the observation table. -/
theorem selection_excludes_observed_combos (allowed : List Cond)
    (ms : List Model) (k : Nat) (s : State) (rows : List Obs)
    (h : s.experiment_data = some rows) (hne : rows ≠ []) :
    ∀ c ∈ (experimentalist_on_state allowed ms k s).conditions,
      ¬ c ∈ rows.map Obs.ivCombo := by
  intro c hc hmem
  have hf : rows.isEmpty = false := by
    cases rows with
    | nil => exact absurd rfl hne
    | cons a l => rfl
  rw [experimentalist_conditions_of_data allowed ms k s rows h hf] at hc
  have hc2 := List.mem_of_mem_take hc
  have hnotin := (List.mem_filter.mp hc2).2
  simp only [decide_not, Bool.not_eq_true', decide_eq_false_iff_not] at hnotin
  exact hnotin (mem_dropDuplicates_of_mem _ _ hmem)

/-- C3 witness: with observation (3,5) recorded, the pool selected from
the design space [(1,2), (3,5)] avoids the observed combination. -/
theorem selection_excludes_observed_combos_witness :
    (⟨1, 2⟩ : Cond) ∈ (experimentalist_on_state [⟨1, 2⟩, ⟨3, 5⟩] [] 2
        (⟨[], some [⟨3, 5, 1⟩], []⟩ : State)).conditions ∧
    ¬ (⟨1, 2⟩ : Cond) ∈ ([(⟨3, 5, 1⟩ : Obs)].map Obs.ivCombo) :=
  ⟨by decide,
   selection_excludes_observed_combos [⟨1, 2⟩, ⟨3, 5⟩] [] 2
     ⟨[], some [⟨3, 5, 1⟩], []⟩ [⟨3, 5, 1⟩] rfl (by decide) ⟨1, 2⟩ (by decide)⟩

/-- C4: between consecutive cycles the observation table only grows, and
the part that was there after cycle i is still there, row for row, after
cycle i+1 — new observations are concatenated at the end, existing rows
never rewritten or removed. -/
theorem observation_table_append_only
    (engines : List (List Cond → List (List Trial))) (i : Nat) :
    (runLoop allowed_conditions (engines.take i) progStart).edata.length
      ≤ (runLoop allowed_conditions (engines.take (i + 1)) progStart).edata.length ∧
    (runLoop allowed_conditions (engines.take (i + 1)) progStart).edata.take
        ((runLoop allowed_conditions (engines.take i) progStart).edata.length)
      = (runLoop allowed_conditions (engines.take i) progStart).edata := by
  by_cases hi : i < engines.length
  · have hsplit : engines.take (i + 1)
        = engines.take i ++ [engines.get ⟨i, hi⟩] := by
      rw [List.take_succ, List.getElem?_eq_getElem hi]
      rfl
    rw [hsplit, runLoop_append,
      show runLoop allowed_conditions [engines.get ⟨i, hi⟩]
          (runLoop allowed_conditions (engines.take i) progStart)
        = cycleStep allowed_conditions (engines.get ⟨i, hi⟩)
            (runLoop allowed_conditions (engines.take i) progStart) from rfl,
      cycleStep_edata]
    exact ⟨by simp, List.take_left _ _⟩
  · rw [show engines.take (i + 1) = engines.take i from by
      rw [List.take_of_length_le (by omega), List.take_of_length_le (by omega)]]
    exact ⟨le_refl _, List.take_length _⟩

/-- C5: the condition pool after the bootstrap or any selection stage is
exactly what that invocation's sampler returned — full replacement,
independent of whatever pool was there before. -/
theorem condition_pool_fully_replaced (allowed : List Cond) (ms : List Model)
    (k : Nat) (s : State) (extra : List Cond) :
    (experimentalist_on_state allowed ms k s).conditions
      = pick_conditions allowed (observedCombos s) ms k ∧
    (initialize_state allowed k s).conditions = random_sample allowed k ∧
    (experimentalist_on_state allowed ms k { s with conditions := extra }).conditions
      = (experimentalist_on_state allowed ms k s).conditions :=
  ⟨rfl, rfl, rfl⟩

/-- C6: invoking the fit stage on a container whose observation table is
absent or empty is a no-op, not an error: the container comes back
value-equal, in particular with its model history unchanged. -/
theorem fit_stage_noop_on_empty_table (s : State)
    (h : s.experiment_data = none ∨ s.experiment_data = some []) :
    theorist_on_state s = s ∧ (theorist_on_state s).models = s.models := by
  have he := theorist_fields_empty s h
  exact ⟨he, by rw [he]⟩

/-- C6 witness: the fit stage on the fresh container (no data yet). -/
theorem fit_stage_noop_on_empty_table_witness :
    theorist_on_state state0 = state0
      ∧ (theorist_on_state state0).models = state0.models :=
  fit_stage_noop_on_empty_table state0 (Or.inl rfl)

/-- C7 counterexample: an execution collaborator that returns zero
result blobs — fewer than the two requested conditions — makes the run
raise rather than complete: the fit stage no-ops on the empty table, the
model history is still empty, and line 205's `models[-1]` has no entry
to take, so the one-cycle run aborts with no final container. -/
theorem under_delivery_zero_delivery_raises :
    (engineZero progStart.conditions).length < num_conditions_per_cycle ∧
    runLoop? allowed_conditions [engineZero] progStart = none :=
  ⟨by decide, rfl⟩

/-- C7 (amended): when the execution collaborators under-deliver but
every fit stage still sees a non-empty observation table (at least one
row parsed by the first cycle), the run does not raise, and the final
observation table's length is the sum, over all cycles and all returned
result blobs, of the rows the parser actually produced; a run whose
first cycle parses zero rows instead aborts at the scheduler's
model-indexing line. -/
theorem under_delivery_reflected_when_fits_fed
    (engines : List (List Cond → List (List Trial)))
    (H : ∀ i (hi : i < engines.length),
      (runner_on_state (engines.get ⟨i, hi⟩)
        (runLoop allowed_conditions (engines.take i) progStart)).edata ≠ []) :
    runLoop? allowed_conditions engines progStart
        = some (runLoop allowed_conditions engines progStart) ∧
    (runLoop allowed_conditions engines progStart).edata.length
        = (traceRowCounts allowed_conditions engines progStart).sum := by
  refine ⟨runLoop?_eq_of_nonempty allowed_conditions engines progStart H, ?_⟩
  rw [runLoop_edata, show progStart.edata = [] from rfl, List.nil_append,
    traceParsed_length]

/-- C7 witness: a one-cycle run whose engine under-delivers one result
blob with one kept trial for the two requested conditions — the run
completes with a one-row table. -/
theorem under_delivery_reflected_when_fits_fed_witness :
    (∀ i (hi : i < ([engineA] : List (List Cond → List (List Trial))).length),
      (runner_on_state ([engineA].get ⟨i, hi⟩)
        (runLoop allowed_conditions ([engineA].take i) progStart)).edata ≠ []) ∧
    (runLoop? allowed_conditions [engineA] progStart
        = some (runLoop allowed_conditions [engineA] progStart) ∧
     (runLoop allowed_conditions [engineA] progStart).edata.length
        = (traceRowCounts allowed_conditions [engineA] progStart).sum) :=
  ⟨by decide, under_delivery_reflected_when_fits_fed [engineA] (by decide)⟩

end Claims

end AutoSciDis
